import Mathlib

/-!
Verification of the CaseWare archive recovery pipeline
(`caseware_universal_extractor.py` and `caseware_stream_extractor.py`).

Byte buffers are modelled as a length together with a byte-valued function
(`Buf`); byte strings derived from a buffer (stream contents, filenames,
member payloads) are `List Nat`.  External library calls
(`lzma.decompress`, `zlib.decompress`, `zipfile` extraction) are modelled
as oracle parameters, since their code is not part of this repository;
`zlib.crc32` is fully specified, so it is implemented directly.
-/

/-- An immutable byte buffer: Python `bytes`.  `get` is normalised to a
byte via `% 256` by `Buf.byte`, so that every `Buf` denotes a byte
string. -/
structure Buf where
  len : Nat
  get : Nat → Nat

def Buf.byte (d : Buf) (i : Nat) : Nat := d.get i % 256

/-- Python slicing `data[a:b]` (clipped at the buffer length; empty when
`a ≥ min b len`). -/
def Buf.slice (d : Buf) (a b : Nat) : List Nat :=
  (List.range (min b d.len - a)).map (fun k => d.byte (a + k))

/-- Little-endian 16-bit read: `struct.unpack('<H', data[off:off+2])`. -/
def Buf.u16 (d : Buf) (off : Nat) : Nat :=
  d.byte off + 256 * d.byte (off + 1)

/-- Little-endian 32-bit read: `struct.unpack('<I', data[off:off+4])`. -/
def Buf.u32 (d : Buf) (off : Nat) : Nat :=
  d.byte off + 256 * d.byte (off + 1) + 65536 * d.byte (off + 2) +
    16777216 * d.byte (off + 3)

/-- Little-endian 64-bit read: `struct.unpack('<Q', data[off:off+8])`. -/
def Buf.u64 (d : Buf) (off : Nat) : Nat :=
  d.u32 off + 4294967296 * d.u32 (off + 4)

/-- The suffix `data[p:]` of a buffer, as a buffer. -/
def Buf.suffix (d : Buf) (p : Nat) : Buf :=
  ⟨d.len - p, fun i => d.get (p + i)⟩

/-- View a byte list as a buffer. -/
def Buf.ofList (l : List Nat) : Buf :=
  ⟨l.length, fun i => l.getD i 0⟩

/-- Every element of a slice is a byte of the buffer read at an in-bounds
position. -/
theorem Buf.mem_slice_origin (d : Buf) (a b : Nat) (x : Nat)
    (hx : x ∈ d.slice a b) : ∃ p, p < d.len ∧ x = d.byte p := by
  rcases List.mem_map.mp hx with ⟨k, hk, hxk⟩
  rcases List.mem_range.mp hk with hklt
  refine ⟨a + k, ?_, hxk.symm⟩
  have h1 : k < min b d.len - a := hklt
  have h2 : a + k < min b d.len := by omega
  have h3 : min b d.len ≤ d.len := Nat.min_le_right _ _
  omega

/-! ## CRC-32 (`zlib.crc32(data) & 0xffffffff`) -/

/-- One bit-step of the reflected CRC-32 polynomial division. -/
def crc32Round (c : Nat) : Nat :=
  if c % 2 = 1 then Nat.xor (c / 2) 0xEDB88320 else c / 2

def crc32Rounds : Nat → Nat → Nat
  | 0, c => c
  | n + 1, c => crc32Rounds n (crc32Round c)

/-- Fold one byte into the running CRC-32 state. -/
def crc32Update (c b : Nat) : Nat := crc32Rounds 8 (Nat.xor c (b % 256))

/-- CRC-32 of a byte string, as computed by `zlib.crc32`. -/
def crc32 (l : List Nat) : Nat :=
  Nat.xor (l.foldl crc32Update 0xFFFFFFFF) 0xFFFFFFFF

/-! ## Compression Codec (`decompress_caseware_file`)

The proprietary envelope decoder.  The raw-LZMA2 decoder
(`lzma.decompress(..., format=FORMAT_RAW, ...)`) is an external library
call, modelled as the oracle `lz`; `lz payload = none` models a decoder
exception. -/

/-- The fixed 4-byte CaseWare envelope marker `b'\x0c\x00\x00\x00'`. -/
def cwMarker : List Nat := [0x0c, 0, 0, 0]

/-- `CaseWareExtractor.decompress_caseware_file`: if the buffer starts
with the marker, the payload is everything after the 12-byte header,
otherwise the whole buffer; on decoder failure the original input is
returned unchanged. -/
def decompress_caseware_file (lz : List Nat → Option (List Nat))
    (data : List Nat) : List Nat :=
  let payload := if data.take 4 = cwMarker then data.drop 12 else data
  match lz payload with
  | some r => r
  | none => data

/-- Claim C3: the codec takes as payload the bytes after the 12-byte
header when the first 4 bytes equal the fixed marker and the whole
buffer otherwise, returns the raw-LZMA2 decompression of that payload on
success, and on any decoder error returns the original input bytes
unmodified. -/
theorem codec_payload_and_fallback (lz : List Nat → Option (List Nat))
    (data : List Nat) :
    (data.take 4 = cwMarker →
      decompress_caseware_file lz data = (lz (data.drop 12)).getD data) ∧
    (data.take 4 ≠ cwMarker →
      decompress_caseware_file lz data = (lz data).getD data) ∧
    (lz (if data.take 4 = cwMarker then data.drop 12 else data) = none →
      decompress_caseware_file lz data = data) := by
  refine ⟨?_, ?_, ?_⟩
  · intro h
    simp only [decompress_caseware_file, h, if_pos rfl]
    cases hlz : lz (data.drop 12) <;> simp [hlz]
  · intro h
    simp only [decompress_caseware_file, if_neg h]
    cases hlz : lz data <;> simp [hlz]
  · intro h
    simp only [decompress_caseware_file, h]

/-- Witness for C3 at concrete inputs. -/
theorem codec_payload_and_fallback_witness :
    decompress_caseware_file (fun _ => none) [1, 2, 3] = [1, 2, 3] ∧
    decompress_caseware_file (fun p => some p)
      [0x0c, 0, 0, 0, 9, 9, 9, 9, 9, 9, 9, 9, 7, 7] = [7, 7] := by
  constructor
  · exact (codec_payload_and_fallback (fun _ => none) [1, 2, 3]).2.2 rfl
  · have h := (codec_payload_and_fallback (fun p => some p)
      [0x0c, 0, 0, 0, 9, 9, 9, 9, 9, 9, 9, 9, 7, 7]).1 (by decide)
    simpa using h

/-! ## Compound-File Reader, universal extractor
(`CaseWareExtractor.parse_ole_compound_document`) -/

/-- The 8-byte OLE compound-document signature. -/
def oleMagic : List Nat := [0xd0, 0xcf, 0x11, 0xe0, 0xa1, 0xb1, 0x1a, 0xe1]

/-- The target stream name `'casewaredocument'` as UTF-16 code units
(what both extractors compare the lower-cased entry name against). -/
def cwTarget : List Nat :=
  [99, 97, 115, 101, 119, 97, 114, 101, 100, 111, 99, 117, 109, 101, 110, 116]

/-- Python `str.lower` on one code unit (ASCII range; non-ASCII units can
never compare equal to the ASCII target name, so this is sufficient for
the name comparison performed by the source). -/
def unitLower (c : Nat) : Nat := if 65 ≤ c ∧ c ≤ 90 then c + 32 else c

/-- Drop trailing NUL code units: Python `str.rstrip('\x00')`. -/
def rstrip0 (l : List Nat) : List Nat := (l.reverse.dropWhile (· == 0)).reverse

/-- Decode the 64-byte directory-entry name field as both extractors do:
`null_pos = name_bytes.find(b'\x00\x00')` (byte-granular, any parity);
when `null_pos > 0` and even, decode the first `null_pos` bytes as
UTF-16LE; otherwise decode all 64 bytes and strip trailing NULs.  Decode
is modelled at code-unit granularity (an undecodable lone surrogate makes
the source skip the entry; such a name can never match the ASCII target,
so the outcome is identical). -/
def decodeEntryName (nb : List Nat) : List Nat :=
  let u16at : Nat → Nat := fun k => nb.getD (2 * k) 0 + 256 * nb.getD (2 * k + 1) 0
  match (List.range 63).find? (fun i => nb.getD i 1 == 0 && nb.getD (i + 1) 1 == 0) with
  | some i =>
      if 0 < i ∧ i % 2 = 0 then (List.range (i / 2)).map u16at
      else rstrip0 ((List.range 32).map u16at)
  | none => rstrip0 ((List.range 32).map u16at)

/-- One 128-byte directory entry as examined by
`parse_ole_compound_document` (lines 131-152): decode name, kind byte at
offset 66, start sector at 116, stream size at 120; when the lower-cased
name equals the target and the kind is 2 (stream) and the contiguous
byte range `512 + start*ss .. + size` is within the buffer, return that
slice; in every other case fall through to the next entry. -/
def parseOleEntry (d : Buf) (ss eo : Nat) : Option (List Nat) :=
  let name := decodeEntryName (d.slice eo (eo + 64))
  let etype := d.byte (eo + 66)
  let startSector := d.u32 (eo + 116)
  let streamSize := d.u64 (eo + 120)
  if name.map unitLower = cwTarget ∧ etype = 2 then
    let so := 512 + startSector * ss
    if so + streamSize ≤ d.len then some (d.slice so (so + streamSize))
    else none
  else none

/-- The `for entry_idx in range(entries_per_sector)` loop; entries whose
128 bytes do not fit in the buffer are skipped (`continue`). -/
def parseOleEntryLoop (d : Buf) (ss curOff : Nat) : Nat → Nat → Option (List Nat)
  | 0, _ => none
  | count + 1, idx =>
      let eo := curOff + idx * 128
      match (if d.len < eo + 128 then none else parseOleEntry d ss eo) with
      | some r => some r
      | none => parseOleEntryLoop d ss curOff count (idx + 1)

/-- The `for sector in range(max_sectors)` loop (`max_sectors = 10`); a
directory sector extending past the buffer breaks the loop. -/
def parseOleSectorLoop (d : Buf) (ss dirOff : Nat) : Nat → Nat → Option (List Nat)
  | 0, _ => none
  | count + 1, sector =>
      let curOff := dirOff + sector * ss
      if d.len < curOff + ss then none
      else
        match parseOleEntryLoop d ss curOff (ss / 128) 0 with
        | some r => some r
        | none => parseOleSectorLoop d ss dirOff count (sector + 1)

/-- `CaseWareExtractor.parse_ole_compound_document`: validate signature
and minimum length, decode sector size as `1 << exponent` from the
2-byte field at offset 30 (no bound check on the exponent), read the
first directory sector index at offset 48, then scan up to 10 directory
sectors for the target stream entry and return its contiguous slice. -/
def parse_ole_compound_document (d : Buf) : Option (List Nat) :=
  if d.len < 512 ∨ d.slice 0 8 ≠ oleMagic then none
  else
    parseOleSectorLoop d (2 ^ d.u16 30) (512 + d.u32 48 * 2 ^ d.u16 30) 10 0

/-- Byte `j` of a 128-byte directory entry describing a stream named
`CasewareDocument` with the given start sector and declared size (used to
build concrete test buffers; start sector and size below 2^16). -/
def dirEntryByte (startSector size j : Nat) : Nat :=
  if j < 32 then
    (if j % 2 = 0 then
      [0x43, 0x61, 0x73, 0x65, 0x77, 0x61, 0x72, 0x65,
       0x44, 0x6F, 0x63, 0x75, 0x6D, 0x65, 0x6E, 0x74].getD (j / 2) 0
     else 0)
  else if j = 64 then 34
  else if j = 66 then 2
  else if j = 116 then startSector % 256
  else if j = 117 then startSector / 256
  else if j = 120 then size % 256
  else if j = 121 then size / 256
  else 0

/-- A buffer whose sector-size exponent field holds 20: OLE magic, sector
exponent 20 at offset 30, first directory sector 0, and a CasewareDocument
stream entry (start sector 0, size 4) at the directory offset 512.  Length
512 + 2^20 + 512, so the whole directory sector fits. -/
def c6buf : Buf :=
  ⟨1049600, fun i =>
    if i < 8 then oleMagic.getD i 0
    else if i = 30 then 20
    else if 512 ≤ i ∧ i < 640 then dirEntryByte 0 4 (i - 512)
    else 0⟩

/-- Claim C6 counterexample: on a buffer whose 2-byte sector-size exponent
field decodes to 20, the reader does not reject the header; it proceeds
with sector size `1 <<< 20` and returns the matched stream's bytes, not
a not-found result. -/
theorem sector_exponent_not_checked_cex :
    c6buf.u16 30 = 20 ∧
    parse_ole_compound_document c6buf = some [0x43, 0, 0x61, 0] := by
  constructor
  · decide
  · decide

/-- Claim C6 amended: the code performs no bound check on the sector-size
exponent and proceeds with sector size `1 <<< exponent`; a header whose
first directory sector then extends past the buffer makes the reader
return not-found (so fallback strategies run), which is the only sense in
which oversized sector sizes are rejected. -/
theorem oversized_sector_dir_out_of_bounds (d : Buf)
    (hlen : 512 ≤ d.len) (hmagic : d.slice 0 8 = oleMagic)
    (hdir : d.len < 512 + d.u32 48 * 2 ^ d.u16 30 + 2 ^ d.u16 30) :
    parse_ole_compound_document d = none := by
  unfold parse_ole_compound_document
  rw [if_neg]
  · show parseOleSectorLoop d _ _ (9 + 1) 0 = none
    unfold parseOleSectorLoop
    rw [if_pos]
    omega
  · push_neg
    exact ⟨by omega, hmagic⟩

/-- A 560-byte buffer with valid magic, sector exponent 9 and first
directory sector 0: the directory region ends at byte 1024 > 560. -/
def c6wit : Buf :=
  ⟨560, fun i => if i < 8 then oleMagic.getD i 0 else if i = 30 then 9 else 0⟩

/-- Witness for the amended C6 theorem at a concrete buffer. -/
theorem oversized_sector_dir_out_of_bounds_witness :
    parse_ole_compound_document c6wit = none :=
  oversized_sector_dir_out_of_bounds c6wit (by decide) (by decide) (by decide)

/-! ## Compound-File Reader, stream extractor (`CaseWareStreamExtractor`):
FAT chains and stream extraction -/

/-- The FREESECT sentinel `0xFFFFFFFE`. -/
def FREESECT : Nat := 0xFFFFFFFE

/-- The ENDOFCHAIN sentinel `0xFFFFFFFF`. -/
def ENDOFCHAIN : Nat := 0xFFFFFFFF

/-- The FAT sector locator table read from the header
(`extract_caseware_document_stream_robust` lines 146-150): 109
little-endian 32-bit entries at offsets 76, 80, ..., keeping everything
that is not FREESECT. -/
def headerFatSectors (d : Buf) : List Nat :=
  (List.range 109).foldr
    (fun i acc =>
      if d.u32 (76 + 4 * i) = FREESECT then acc else d.u32 (76 + 4 * i) :: acc) []

/-- The FAT-table construction of `read_fat_chain` (lines 73-83): for
each non-FREESECT FAT sector whose byte range fits the buffer, append its
`sector_size // 4` little-endian 32-bit entries. -/
def buildFatTable (d : Buf) (ss : Nat) (fats : List Nat) : List Nat :=
  fats.foldl
    (fun acc f =>
      if f = FREESECT then acc
      else if 512 + f * ss + ss ≤ d.len then
        acc ++ (List.range (ss / 4)).map (fun i => d.u32 (512 + f * ss + 4 * i))
      else acc) []

/-- The chain-following `while` loop of `read_fat_chain` (lines 86-94),
with an explicit iteration budget.  `read_fat_chain` supplies budget
`fat.length + 1`; `fat_chain_construction_terminates` proves the budget
is never exhausted, because the visited-set check stops the walk after at
most `fat.length` fresh sectors.  The accumulator plays the role of both
`visited` and `sectors` (they always hold the same sectors, in order). -/
def fatChainGo (fat : List Nat) : Nat → List Nat → Nat → List Nat
  | 0, acc, _ => acc
  | fuel + 1, acc, cur =>
      if cur = FREESECT ∨ fat.length ≤ cur then acc
      else if cur ∈ acc then acc
      else
        if fat.getD cur 0 = ENDOFCHAIN then acc ++ [cur]
        else fatChainGo fat fuel (acc ++ [cur]) (fat.getD cur 0)

/-- `CaseWareStreamExtractor.read_fat_chain`. -/
def read_fat_chain (d : Buf) (startSector ss : Nat) (fats : List Nat) : List Nat :=
  let fat := buildFatTable d ss fats
  fatChainGo fat (fat.length + 1) [] startSector

/-- `CaseWareStreamExtractor.extract_stream_data` (lines 98-121): follow
the chain, concatenate the payloads of those chain sectors whose byte
range lies within the buffer, and trim to the declared stream size. -/
def extract_stream_data (d : Buf) (startSector streamSize ss : Nat)
    (fats : List Nat) : List Nat :=
  if streamSize = 0 then []
  else
    let sectors := read_fat_chain d startSector ss fats
    if sectors = [] then []
    else
      let sd := ((sectors.filter (fun s => decide (512 + s * ss + ss ≤ d.len))).map
        (fun s => d.slice (512 + s * ss) (512 + s * ss + ss))).flatten
      if streamSize < sd.length then sd.take streamSize else sd

/-- Modelled from the spec (the reference implementation the spec compares
the reader against): "follow the FAT chain from its start sector,
concatenate sector payloads (each preceded by a fixed 512-byte header
region offset), and truncate to the entry's declared stream size". -/
def referenceStreamBytes (d : Buf) (startSector streamSize ss : Nat)
    (fats : List Nat) : List Nat :=
  (((read_fat_chain d startSector ss fats).map
    (fun s => d.slice (512 + s * ss) (512 + s * ss + ss))).flatten).take streamSize

/-- A duplicate-free list of naturals all below `n` has length at most
`n`. -/
theorem nodup_lt_length_le (l : List Nat) (n : Nat) (hn : l.Nodup)
    (hb : ∀ s ∈ l, s < n) : l.length ≤ n := by
  classical
  have h1 : l.toFinset ⊆ Finset.range n := by
    intro x hx
    exact Finset.mem_range.mpr (hb x (List.mem_toFinset.mp hx))
  have h2 := Finset.card_le_card h1
  rwa [List.toFinset_card_of_nodup hn, Finset.card_range] at h2

/-- Invariant of the chain walk: a duplicate-free accumulator stays
duplicate-free, and every sector of the result was already visited or is
a valid FAT index. -/
theorem fatChainGo_nodup_bound (fat : List Nat) :
    ∀ fuel acc cur, acc.Nodup →
      (fatChainGo fat fuel acc cur).Nodup ∧
      (∀ s ∈ fatChainGo fat fuel acc cur, s ∈ acc ∨ s < fat.length) := by
  intro fuel
  induction fuel with
  | zero => exact fun acc cur h => ⟨h, fun s hs => Or.inl hs⟩
  | succ n ih =>
      intro acc cur h
      unfold fatChainGo
      by_cases h1 : cur = FREESECT ∨ fat.length ≤ cur
      · simp only [if_pos h1]
        exact ⟨h, fun s hs => Or.inl hs⟩
      · simp only [if_neg h1]
        by_cases h2 : cur ∈ acc
        · simp only [if_pos h2]
          exact ⟨h, fun s hs => Or.inl hs⟩
        · simp only [if_neg h2]
          have hcur : cur < fat.length := by
            rcases Nat.lt_or_ge cur fat.length with hc | hc
            · exact hc
            · exact absurd (Or.inr hc) h1
          have hacc' : (acc ++ [cur]).Nodup := by
            rw [List.nodup_append]
            exact ⟨h, List.nodup_singleton cur,
              by simpa [List.disjoint_singleton] using h2⟩
          by_cases h3 : fat.getD cur 0 = ENDOFCHAIN
          · simp only [if_pos h3]
            refine ⟨hacc', fun s hs => ?_⟩
            rcases List.mem_append.mp hs with hs | hs
            · exact Or.inl hs
            · rcases List.mem_singleton.mp hs with rfl
              exact Or.inr hcur
          · simp only [if_neg h3]
            rcases ih (acc ++ [cur]) (fat.getD cur 0) hacc' with ⟨ha, hb2⟩
            refine ⟨ha, fun s hs => ?_⟩
            rcases hb2 s hs with hs' | hs'
            · rcases List.mem_append.mp hs' with hs'' | hs''
              · exact Or.inl hs''
              · rcases List.mem_singleton.mp hs'' with rfl
                exact Or.inr hcur
            · exact Or.inr hs'

/-- Budget stabilisation: once the budget covers the number of sectors
that can still be fresh, one more unit of budget changes nothing — the
walk has already reached one of its stopping conditions. -/
theorem fatChainGo_stab (fat : List Nat) :
    ∀ fuel acc cur, acc.Nodup → (∀ s ∈ acc, s < fat.length) →
      fat.length + 1 ≤ fuel + acc.length →
      fatChainGo fat fuel acc cur = fatChainGo fat (fuel + 1) acc cur := by
  intro fuel
  induction fuel with
  | zero =>
      intro acc cur h hb hf
      have := nodup_lt_length_le acc fat.length h hb
      omega
  | succ n ih =>
      intro acc cur h hb hf
      conv_lhs => unfold fatChainGo
      conv_rhs => unfold fatChainGo
      by_cases h1 : cur = FREESECT ∨ fat.length ≤ cur
      · simp only [if_pos h1]
      · simp only [if_neg h1]
        by_cases h2 : cur ∈ acc
        · simp only [if_pos h2]
        · simp only [if_neg h2]
          by_cases h3 : fat.getD cur 0 = ENDOFCHAIN
          · simp only [if_pos h3]
          · simp only [if_neg h3]
            have hcur : cur < fat.length := by
              rcases Nat.lt_or_ge cur fat.length with hc | hc
              · exact hc
              · exact absurd (Or.inr hc) h1
            have hacc' : (acc ++ [cur]).Nodup := by
              rw [List.nodup_append]
              exact ⟨h, List.nodup_singleton cur,
                by simpa [List.disjoint_singleton] using h2⟩
            have hb' : ∀ s ∈ acc ++ [cur], s < fat.length := by
              intro s hs
              rcases List.mem_append.mp hs with hs | hs
              · exact hb s hs
              · rcases List.mem_singleton.mp hs with rfl
                exact hcur
            have hf' : fat.length + 1 ≤ n + (acc ++ [cur]).length := by
              rw [List.length_append]
              simp only [List.length_singleton]
              omega
            exact ih (acc ++ [cur]) (fat.getD cur 0) hacc' hb' hf'

/-- Extra budget beyond `fat.length + 1` never changes the walk's
result. -/
theorem fatChainGo_fuel_add (fat : List Nat) (cur : Nat) :
    ∀ k, fatChainGo fat (fat.length + 1 + k) [] cur =
      fatChainGo fat (fat.length + 1) [] cur := by
  intro k
  induction k with
  | zero => rfl
  | succ n ih =>
      have h := fatChainGo_stab fat (fat.length + 1 + n) [] cur List.nodup_nil
        (by intro s hs; exact absurd hs (List.not_mem_nil s)) (by simp)
      have h2 : fat.length + 1 + (n + 1) = (fat.length + 1 + n) + 1 := by omega
      rw [h2, ← h, ih]

/-- Claim C9: sector-chain construction terminates: it tracks visited
sectors and stops when the next sector was already visited, is the
end-of-chain marker (or FREESECT), or lies outside the FAT table; the
returned list of sector indices contains no repetitions, consists of
valid FAT indices, is no longer than the FAT table (so the walk runs at
most `fat.length` iterations: any iteration budget of at least
`fat.length + 1` yields the same result). -/
theorem fat_chain_construction_terminates (d : Buf) (startSector ss : Nat)
    (fats : List Nat) :
    (read_fat_chain d startSector ss fats).Nodup ∧
    (∀ s ∈ read_fat_chain d startSector ss fats,
      s < (buildFatTable d ss fats).length) ∧
    (read_fat_chain d startSector ss fats).length ≤
      (buildFatTable d ss fats).length ∧
    (∀ f, (buildFatTable d ss fats).length + 1 ≤ f →
      fatChainGo (buildFatTable d ss fats) f [] startSector =
        read_fat_chain d startSector ss fats) ∧
    (∀ (fat : List Nat) (fuel : Nat) (acc : List Nat) (cur : Nat),
      cur ∈ acc → fatChainGo fat (fuel + 1) acc cur = acc) ∧
    (∀ (fat : List Nat) (fuel : Nat) (acc : List Nat) (cur : Nat),
      cur = FREESECT ∨ fat.length ≤ cur → fatChainGo fat (fuel + 1) acc cur = acc) ∧
    (∀ (fat : List Nat) (fuel : Nat) (acc : List Nat) (cur : Nat),
      ¬(cur = FREESECT ∨ fat.length ≤ cur) → cur ∉ acc →
      fat.getD cur 0 = ENDOFCHAIN →
      fatChainGo fat (fuel + 1) acc cur = acc ++ [cur]) := by
  have hmain := fatChainGo_nodup_bound (buildFatTable d ss fats)
    ((buildFatTable d ss fats).length + 1) [] startSector List.nodup_nil
  refine ⟨?_, ?_, ?_, ?_, ?_, ?_, ?_⟩
  · exact hmain.1
  · intro s hs
    rcases hmain.2 s hs with h | h
    · exact absurd h (List.not_mem_nil s)
    · exact h
  · refine nodup_lt_length_le _ _ hmain.1 ?_
    intro s hs
    rcases hmain.2 s hs with h | h
    · exact absurd h (List.not_mem_nil s)
    · exact h
  · intro f hf
    have h1 : f = (buildFatTable d ss fats).length + 1 +
        (f - ((buildFatTable d ss fats).length + 1)) := by omega
    rw [h1, fatChainGo_fuel_add]
    rfl
  · intro fat fuel acc cur hcur
    unfold fatChainGo
    by_cases h1 : cur = FREESECT ∨ fat.length ≤ cur
    · simp only [if_pos h1]
    · simp only [if_neg h1, if_pos hcur]
  · intro fat fuel acc cur h1
    unfold fatChainGo
    simp only [if_pos h1]
  · intro fat fuel acc cur h1 h2 h3
    unfold fatChainGo
    simp only [if_neg h1, if_neg h2, if_pos h3]

/-- The empty buffer, for concrete instantiations of the chain walk. -/
def c9wit : Buf := ⟨0, fun _ => 0⟩

/-- Witness for C9 at concrete inputs: each stopping condition and the
budget-independence at a concrete chain. -/
theorem fat_chain_construction_terminates_witness :
    (read_fat_chain c9wit 0 512 []).Nodup ∧
    fatChainGo [5, 5] 1 [7] 7 = [7] ∧
    fatChainGo [5, 5] 1 [] FREESECT = [] ∧
    fatChainGo [ENDOFCHAIN] 1 [] 0 = [0] ∧
    fatChainGo (buildFatTable c9wit 512 []) 2 [] 0 =
      read_fat_chain c9wit 0 512 [] := by
  refine ⟨(fat_chain_construction_terminates c9wit 0 512 []).1, ?_, ?_, ?_, ?_⟩
  · exact (fat_chain_construction_terminates c9wit 0 512
      []).2.2.2.2.1 [5, 5] 0 [7] 7 (by decide)
  · exact (fat_chain_construction_terminates c9wit 0 512
      []).2.2.2.2.2.1 [5, 5] 0 [] FREESECT (Or.inl rfl)
  · exact (fat_chain_construction_terminates c9wit 0 512
      []).2.2.2.2.2.2 [ENDOFCHAIN] 0 [] 0 (by decide) (by decide) (by decide)
  · exact (fat_chain_construction_terminates c9wit 0 512
      []).2.2.2.1 2 (by decide)

/-- A stream returned by a single directory entry is a slice of the
buffer. -/
theorem parseOleEntry_slice (d : Buf) (ss eo : Nat) (l : List Nat)
    (h : parseOleEntry d ss eo = some l) : ∃ a b, l = d.slice a b := by
  unfold parseOleEntry at h
  dsimp only at h
  split at h
  · split at h
    · exact ⟨_, _, (Option.some_injective _ h).symm⟩
    · exact absurd h (by simp)
  · exact absurd h (by simp)

/-- A stream returned by the entry loop is a slice of the buffer. -/
theorem parseOleEntryLoop_slice (d : Buf) (ss curOff : Nat) :
    ∀ count idx l, parseOleEntryLoop d ss curOff count idx = some l →
      ∃ a b, l = d.slice a b := by
  intro count
  induction count with
  | zero => intro idx l h; exact absurd h (by simp [parseOleEntryLoop])
  | succ n ih =>
      intro idx l h
      unfold parseOleEntryLoop at h
      dsimp only at h
      rcases heq : (if d.len < curOff + idx * 128 + 128 then none
          else parseOleEntry d ss (curOff + idx * 128)) with _ | r
      · rw [heq] at h
        exact ih (idx + 1) l h
      · rw [heq] at h
        have hr : r = l := Option.some_injective _ h
        subst hr
        split at heq
        · exact absurd heq (by simp)
        · exact parseOleEntry_slice d ss _ r heq

/-- A stream returned by the sector loop is a slice of the buffer. -/
theorem parseOleSectorLoop_slice (d : Buf) (ss dirOff : Nat) :
    ∀ count sector l, parseOleSectorLoop d ss dirOff count sector = some l →
      ∃ a b, l = d.slice a b := by
  intro count
  induction count with
  | zero => intro sector l h; exact absurd h (by simp [parseOleSectorLoop])
  | succ n ih =>
      intro sector l h
      unfold parseOleSectorLoop at h
      dsimp only at h
      split at h
      · exact absurd h (by simp)
      · rcases heq : parseOleEntryLoop d ss (dirOff + sector * ss) (ss / 128) 0
          with _ | r
        · rw [heq] at h
          exact ih (sector + 1) l h
        · rw [heq] at h
          have hr : r = l := Option.some_injective _ h
          subst hr
          exact parseOleEntryLoop_slice d ss _ _ _ r heq

/-- Any stream returned by `parse_ole_compound_document` is a slice of
the input buffer. -/
theorem parse_ole_slice (d : Buf) (l : List Nat)
    (h : parse_ole_compound_document d = some l) : ∃ a b, l = d.slice a b := by
  unfold parse_ole_compound_document at h
  split at h
  · exact absurd h (by simp)
  · exact parseOleSectorLoop_slice d _ _ 10 0 l h

/-- Claim C8 amended: out-of-range sector or stream ranges never cause an
out-of-bounds read: every byte either reader returns originates at an
in-bounds buffer position, and the stream extractor returns at most the
declared size; but an out-of-bounds range is skipped (yielding a
not-found/empty result), not truncated to the partially available
bytes. -/
theorem stream_reader_never_reads_out_of_bounds (d : Buf)
    (startSector streamSize ss : Nat) (fats : List Nat) :
    (∀ x ∈ extract_stream_data d startSector streamSize ss fats,
      ∃ p, p < d.len ∧ x = d.byte p) ∧
    (extract_stream_data d startSector streamSize ss fats).length ≤ streamSize ∧
    (∀ l, parse_ole_compound_document d = some l →
      ∀ x ∈ l, ∃ p, p < d.len ∧ x = d.byte p) := by
  refine ⟨?_, ?_, ?_⟩
  · intro x hx
    simp only [extract_stream_data] at hx
    split at hx
    · exact absurd hx (List.not_mem_nil x)
    · split at hx
      · exact absurd hx (List.not_mem_nil x)
      · have hx' : x ∈ (((read_fat_chain d startSector ss fats).filter
            (fun s => decide (512 + s * ss + ss ≤ d.len))).map
            (fun s => d.slice (512 + s * ss) (512 + s * ss + ss))).flatten := by
          split at hx
          · exact List.take_subset _ _ hx
          · exact hx
        rcases List.mem_flatten.mp hx' with ⟨l', hl', hxl⟩
        rcases List.mem_map.mp hl' with ⟨s, _, hmap⟩
        rw [← hmap] at hxl
        exact Buf.mem_slice_origin d _ _ x hxl
  · simp only [extract_stream_data]
    split
    · simp
    · split
      · simp
      · split
        · rw [List.length_take]
          omega
        · omega
  · intro l hl x hx
    rcases parse_ole_slice d l hl with ⟨a, b, rfl⟩
    exact Buf.mem_slice_origin d a b x hx

/-- The spec's §8 scenario buffer: 600 bytes, OLE magic, sector exponent
9 (sector size 512), first directory sector 0, header FAT locator table
pointing at sector 0 with all other locators FREESECT, and the bytes of a
stream directory entry (declared size 100, start sector 0) at offset
512 — every sector's byte range `512.. + 512` exceeds the 600-byte
buffer. -/
def c8buf : Buf :=
  ⟨600, fun i =>
    if i < 8 then oleMagic.getD i 0
    else if i = 30 then 9
    else if 76 ≤ i ∧ i < 80 then 0
    else if 80 ≤ i ∧ i < 512 then (if i % 4 = 0 then 0xFE else 0xFF)
    else if 512 ≤ i ∧ i < 600 then dirEntryByte 0 100 (i - 512)
    else 0⟩

set_option maxRecDepth 40000 in
/-- Claim C8 counterexample: on the spec's own scenario (600-byte buffer,
compound-file magic, sector size 512, declared stream size 100 at sector
0), the readers do not truncate to the 88 available bytes — the stream
extractor returns the empty byte string (the out-of-bounds sector is
skipped) and the universal reader reports not-found. -/
theorem stream_range_exceeds_buffer_cex :
    c8buf.len = 600 ∧
    c8buf.slice 0 8 = oleMagic ∧
    (2 : Nat) ^ c8buf.u16 30 = 512 ∧
    headerFatSectors c8buf = [0] ∧
    (c8buf.slice 512 600).length = 88 ∧
    extract_stream_data c8buf 0 100 512 (headerFatSectors c8buf) = [] ∧
    extract_stream_data c8buf 0 100 512 (headerFatSectors c8buf) ≠
      c8buf.slice 512 600 ∧
    parse_ole_compound_document c8buf = none := by
  refine ⟨rfl, by decide, by decide, by decide, by decide, by decide, ?_, by decide⟩
  intro h
  have h1 : (extract_stream_data c8buf 0 100 512 (headerFatSectors c8buf)).length =
      (c8buf.slice 512 600).length := by rw [h]
  revert h1
  decide

/-- A 1536-byte buffer whose FAT chain from sector 1 is `[1]`
(FAT entry 1 is ENDOFCHAIN) and whose sector 1 lies in bounds. -/
def c8wit : Buf :=
  ⟨1536, fun i =>
    if 516 ≤ i ∧ i < 520 then 0xFF
    else if i = 1024 then 0x2A
    else 0⟩

set_option maxRecDepth 40000 in
/-- Witness for the amended C8 theorem at a concrete buffer: the byte the
extractor returns originates in bounds, and the output respects the
declared size. -/
theorem stream_reader_never_reads_out_of_bounds_witness :
    (∃ p, p < c8wit.len ∧ 0x2A = c8wit.byte p) ∧
    (extract_stream_data c8wit 1 1 512 [0]).length ≤ 1 :=
  ⟨(stream_reader_never_reads_out_of_bounds c8wit 1 1 512 [0]).1 0x2A (by decide),
   (stream_reader_never_reads_out_of_bounds c8wit 1 1 512 [0]).2.1⟩

/-- Length of a slice whose byte range lies inside the buffer. -/
theorem Buf.slice_length_of_le (d : Buf) (a n : Nat) (h : a + n ≤ d.len) :
    (d.slice a (a + n)).length = n := by
  unfold Buf.slice
  rw [List.length_map, List.length_range]
  omega

/-- Claim C1 amended (the stream extractor's reader): whenever every
sector of the FAT chain lies within the buffer and the chain covers the
declared stream size, `extract_stream_data` returns exactly the declared
number of bytes, equal to the reference output — follow the FAT chain
from the start sector, concatenate the sector payloads, truncate to the
declared size. -/
theorem stream_reader_matches_reference (d : Buf)
    (startSector streamSize ss : Nat) (fats : List Nat)
    (hin : ∀ s ∈ read_fat_chain d startSector ss fats,
      512 + s * ss + ss ≤ d.len)
    (hcov : streamSize ≤ (read_fat_chain d startSector ss fats).length * ss) :
    extract_stream_data d startSector streamSize ss fats =
      referenceStreamBytes d startSector streamSize ss fats ∧
    (extract_stream_data d startSector streamSize ss fats).length =
      streamSize := by
  have hfilter : (read_fat_chain d startSector ss fats).filter
      (fun s => decide (512 + s * ss + ss ≤ d.len)) =
      read_fat_chain d startSector ss fats :=
    List.filter_eq_self.mpr (fun s hs => decide_eq_true (hin s hs))
  have hsd_len : (((read_fat_chain d startSector ss fats).map
      (fun s => d.slice (512 + s * ss) (512 + s * ss + ss))).flatten).length =
      (read_fat_chain d startSector ss fats).length * ss := by
    rw [List.length_flatten, List.map_map]
    have hcongr : (read_fat_chain d startSector ss fats).map
        (List.length ∘ fun s => d.slice (512 + s * ss) (512 + s * ss + ss)) =
        (read_fat_chain d startSector ss fats).map (fun _ => ss) := by
      refine List.map_congr_left ?_
      intro s hs
      exact Buf.slice_length_of_le d (512 + s * ss) ss (hin s hs)
    rw [hcongr, List.map_const', List.sum_replicate, smul_eq_mul]
  have hmain : extract_stream_data d startSector streamSize ss fats =
      referenceStreamBytes d startSector streamSize ss fats := by
    unfold extract_stream_data referenceStreamBytes
    by_cases h0 : streamSize = 0
    · simp [h0]
    · simp only [if_neg h0]
      by_cases hnil : read_fat_chain d startSector ss fats = []
      · rw [hnil] at hcov
        simp only [List.length_nil, Nat.zero_mul, Nat.le_zero] at hcov
        exact absurd hcov h0
      · simp only [if_neg hnil, hfilter]
        split
        · rfl
        · rw [List.take_of_length_le]
          omega
  refine ⟨hmain, ?_⟩
  rw [hmain]
  unfold referenceStreamBytes
  rw [List.length_take]
  omega

/-- A 1536-byte buffer whose FAT chain from sector 1 is `[1]` and whose
sector 1 payload lies in bounds; declared stream size 5. -/
def c1wit : Buf :=
  ⟨1536, fun i => if 516 ≤ i ∧ i < 520 then 0xFF else i % 7⟩

set_option maxRecDepth 40000 in
/-- Witness for the amended C1 theorem at a concrete buffer. -/
theorem stream_reader_matches_reference_witness :
    extract_stream_data c1wit 1 5 512 [0] =
      referenceStreamBytes c1wit 1 5 512 [0] ∧
    (extract_stream_data c1wit 1 5 512 [0]).length = 5 :=
  stream_reader_matches_reference c1wit 1 5 512 [0] (by decide) (by decide)

/-- A 2560-byte valid compound file whose CasewareDocument stream
(declared size 516, start sector 1) is fragmented: the FAT chain is
`[1, 3]` (sector 2 is the directory sector in between).  Header: magic,
sector exponent 9, directory first sector 2, FAT locator table `[0]`,
FAT sector 0 with entry 1 ↦ 3 and entries 2, 3 ↦ ENDOFCHAIN.  Sector 1
holds bytes 0x11, sector 3 holds bytes 0xAA. -/
def c1cex : Buf :=
  ⟨2560, fun i =>
    if i < 8 then oleMagic.getD i 0
    else if i = 30 then 9
    else if i = 48 then 2
    else if i = 516 then 3
    else if 520 ≤ i ∧ i < 528 then 0xFF
    else if 80 ≤ i ∧ i < 512 then (if i % 4 = 0 then 0xFE else 0xFF)
    else if 1024 ≤ i ∧ i < 1536 then 0x11
    else if 1536 ≤ i ∧ i < 2048 then dirEntryByte 1 516 (i - 1536)
    else if 2048 ≤ i then 0xAA
    else 0⟩

set_option maxRecDepth 100000 in
set_option maxHeartbeats 2000000 in
/-- Claim C1 counterexample: a valid compound file (magic, matching
stream entry of declared size 516, in-bounds FAT chain `[1, 3]` covering
the stream) on which the universal extractor's reader returns 516 bytes
that differ from the reference output obtained by following the FAT
chain: the reader returns the contiguous slice from the start sector
instead of the chain concatenation. -/
theorem reader_vs_reference_cex :
    c1cex.slice 0 8 = oleMagic ∧
    512 ≤ c1cex.len ∧
    read_fat_chain c1cex 1 512 (headerFatSectors c1cex) = [1, 3] ∧
    (∀ s ∈ read_fat_chain c1cex 1 512 (headerFatSectors c1cex),
      512 + s * 512 + 512 ≤ c1cex.len) ∧
    516 ≤ (read_fat_chain c1cex 1 512 (headerFatSectors c1cex)).length * 512 ∧
    parse_ole_compound_document c1cex = some (c1cex.slice 1024 1540) ∧
    (c1cex.slice 1024 1540).length = 516 ∧
    c1cex.slice 1024 1540 ≠
      referenceStreamBytes c1cex 1 516 512 (headerFatSectors c1cex) := by
  exact ⟨by decide, by decide, by decide, by decide, by decide, by decide,
    by decide, by decide⟩

/-! ## Archive Reconstructor (`CaseWareExtractor.extract_damaged_zip`)

The signature-driven linear scan over local file headers.  The raw
inflate of method 8 (`zlib.decompress(data, -15)`) is the oracle `il`;
the proprietary method 14 uses the Compression Codec above.  Writing a
member file always succeeds in the model (the file system is the
abstract write-with-parent-creation collaborator of the spec), so a
written member is an element of `ScanResult.members`. -/

/-- The 4-byte ZIP local-file-header signature `b'PK\x03\x04'`. -/
def zipSig : List Nat := [0x50, 0x4B, 0x03, 0x04]

/-- Extraction-log entries appended on a checksum mismatch:
`verify_checksum` appends `CHECKSUM_ERROR` and increments the
`checksum_errors` counter; `extract_damaged_zip` then appends
`EXTRACTED_WITH_CHECKSUM_ERROR`. -/
inductive LogEntry where
  | checksumError (filename : List Nat)
  | extractedWithChecksumError (filename : List Nat)
deriving DecidableEq

/-- One member file written by `extract_damaged_zip`, with ghost
verification bookkeeping: `crcChecked` records whether `verify_checksum`
was called for the member, `crcAttempts` counts those calls, `crcOk` is
the final `checksum_valid` flag. -/
structure Member where
  filename : List Nat
  data : List Nat
  declaredCrc : Nat
  method : Nat
  crcChecked : Bool
  crcOk : Bool
  crcAttempts : Nat
deriving DecidableEq

/-- The observable outcome of one `extract_damaged_zip` call:
written members in order, extraction log, the `checksum_errors` counter
delta, and the ghost trace of cursor positions at which the loop body
ran. -/
structure ScanResult where
  members : List Member
  log : List LogEntry
  checksumErrors : Nat
  offsets : List Nat
deriving DecidableEq

def ScanResult.empty : ScanResult := ⟨[], [], 0, []⟩

/-- Record one executed loop iteration at cursor `off`. -/
def ScanResult.push (off : Nat) (r : ScanResult) : ScanResult :=
  { r with offsets := off :: r.offsets }

/-- Per-member payload decoding (lines 265-272): method 8 is raw inflate
(on exception the raw bytes are kept), method 14 is the CaseWare codec,
anything else keeps the stored bytes. -/
def memberData (il lz : List Nat → Option (List Nat)) (method : Nat)
    (raw : List Nat) : List Nat :=
  if method = 8 then (il raw).getD raw
  else if method = 14 then decompress_caseware_file lz raw
  else raw

/-- Parse, decompress, verify and write one member whose header starts at
`off` (lines 247-295).  `verify_checksum` is called exactly when the
declared CRC-32 is nonzero and the decompressed data is nonempty (line
276); a call compares `crc32` of the data with the declared value. -/
def processMember (il lz : List Nat → Option (List Nat)) (d : Buf)
    (off nameLen extraLen : Nat) : Member :=
  let nameEnd := off + 30 + nameLen
  let crc := d.u32 (off + 14)
  let dataEnd := nameEnd + extraLen + d.u32 (off + 18)
  let fileData := memberData il lz (d.u16 (off + 8))
    (d.slice (nameEnd + extraLen) dataEnd)
  let checked : Bool := decide (crc ≠ 0) && !fileData.isEmpty
  ⟨d.slice (off + 30) nameEnd, fileData, crc, d.u16 (off + 8), checked,
    (if checked = true then decide (crc32 fileData = crc) else true),
    (if checked = true then 1 else 0)⟩

/-- The scanning `while offset < len(data) - 30` loop of
`extract_damaged_zip` (lines 230-301), with an explicit iteration budget
(the wrapper supplies `d.len + 1`; the cursor strictly advances every
iteration, so the budget is never exhausted).  Branches: no signature at
the cursor advances by 1; a signature whose filename length exceeds 1000
or extra length exceeds 50000 advances by 4; a name or data range past
the buffer end stops the scan; otherwise the member is written and the
cursor jumps past its data. -/
def scanZip (il lz : List Nat → Option (List Nat)) :
    Nat → Buf → Nat → ScanResult
  | 0, _, _ => ScanResult.empty
  | fuel + 1, d, off =>
      if ¬ off < d.len - 30 then ScanResult.empty
      else if d.slice off (off + 4) ≠ zipSig then
        ScanResult.push off (scanZip il lz fuel d (off + 1))
      else if 1000 < d.u16 (off + 26) ∨ 50000 < d.u16 (off + 28) then
        ScanResult.push off (scanZip il lz fuel d (off + 4))
      else if d.len < off + 30 + d.u16 (off + 26) then
        { ScanResult.empty with offsets := [off] }
      else if d.len < off + 30 + d.u16 (off + 26) + d.u16 (off + 28) +
          d.u32 (off + 18) then
        { ScanResult.empty with offsets := [off] }
      else
        let m := processMember il lz d off (d.u16 (off + 26)) (d.u16 (off + 28))
        let mismatch : Bool := m.crcChecked && !m.crcOk
        let rest := scanZip il lz fuel d
          (off + 30 + d.u16 (off + 26) + d.u16 (off + 28) + d.u32 (off + 18))
        ⟨m :: rest.members,
         (if mismatch then [LogEntry.checksumError m.filename,
            LogEntry.extractedWithChecksumError m.filename] else []) ++ rest.log,
         (if mismatch then 1 else 0) + rest.checksumErrors,
         off :: rest.offsets⟩

/-- `CaseWareExtractor.extract_damaged_zip` on a byte buffer. -/
def extract_damaged_zip (il lz : List Nat → Option (List Nat))
    (d : Buf) : ScanResult :=
  scanZip il lz (d.len + 1) d 0

/-- Field bookkeeping of one processed member (consequences of the
`verify_checksum` call site at line 276). -/
theorem processMember_fields (il lz : List Nat → Option (List Nat))
    (d : Buf) (off nameLen extraLen : Nat) :
    (processMember il lz d off nameLen extraLen).crcChecked =
      (decide ((processMember il lz d off nameLen extraLen).declaredCrc ≠ 0) &&
        !(processMember il lz d off nameLen extraLen).data.isEmpty) ∧
    (processMember il lz d off nameLen extraLen).crcAttempts =
      (if (processMember il lz d off nameLen extraLen).crcChecked = true
        then 1 else 0) ∧
    (processMember il lz d off nameLen extraLen).crcOk =
      (if (processMember il lz d off nameLen extraLen).crcChecked = true
        then decide (crc32 (processMember il lz d off nameLen extraLen).data =
          (processMember il lz d off nameLen extraLen).declaredCrc)
        else true) :=
  ⟨rfl, rfl, rfl⟩

/-- Shared structural invariant of the scan: the `checksum_errors`
counter counts exactly the written members whose verification ran and
failed, and every written member's verification bookkeeping follows the
`verify_checksum` call site. -/
theorem scanZip_invariant (il lz : List Nat → Option (List Nat)) :
    ∀ fuel d off,
      (scanZip il lz fuel d off).checksumErrors =
        ((scanZip il lz fuel d off).members.filter
          (fun m => m.crcChecked && !m.crcOk)).length ∧
      ∀ m ∈ (scanZip il lz fuel d off).members,
        m.crcChecked = (decide (m.declaredCrc ≠ 0) && !m.data.isEmpty) ∧
        m.crcAttempts = (if m.crcChecked = true then 1 else 0) ∧
        m.crcOk = (if m.crcChecked = true
          then decide (crc32 m.data = m.declaredCrc) else true) := by
  intro fuel
  induction fuel with
  | zero =>
      intro d off
      exact ⟨rfl, fun m hm => absurd hm (List.not_mem_nil m)⟩
  | succ n ih =>
      intro d off
      unfold scanZip
      split
      · exact ⟨rfl, fun m hm => absurd hm (List.not_mem_nil m)⟩
      · split
        · exact ih d (off + 1)
        · split
          · exact ih d (off + 4)
          · split
            · exact ⟨rfl, fun m hm => absurd hm (List.not_mem_nil m)⟩
            · split
              · exact ⟨rfl, fun m hm => absurd hm (List.not_mem_nil m)⟩
              · dsimp only
                rcases ih d (off + 30 + d.u16 (off + 26) + d.u16 (off + 28) +
                  d.u32 (off + 18)) with ⟨iherr, ihmem⟩
                constructor
                · rw [List.filter_cons, iherr]
                  by_cases hmm : ((processMember il lz d off (d.u16 (off + 26))
                      (d.u16 (off + 28))).crcChecked &&
                      !(processMember il lz d off (d.u16 (off + 26))
                        (d.u16 (off + 28))).crcOk) = true
                  · simp [hmm, Nat.add_comm]
                  · simp [hmm]
                · intro m hm
                  rcases List.mem_cons.mp hm with rfl | hm'
                  · exact processMember_fields il lz d off _ _
                  · exact ihmem m hm'

/-- Claim C4 amended: for every written member whose declared CRC-32 is
nonzero and whose decompressed data is nonempty, the reconstructor runs
verification exactly once (never retried); when the computed CRC-32
differs from the declared value the member is still written (it is in
the member list) with `checksum_valid = False`, and the
`checksum_errors` counter counts exactly one anomaly per such
member. -/
theorem checksum_verified_once_mismatch_logged
    (il lz : List Nat → Option (List Nat)) (fuel : Nat) (d : Buf) (off : Nat) :
    (scanZip il lz fuel d off).checksumErrors =
      ((scanZip il lz fuel d off).members.filter
        (fun m => m.crcChecked && !m.crcOk)).length ∧
    ∀ m ∈ (scanZip il lz fuel d off).members,
      m.declaredCrc ≠ 0 → m.data ≠ [] →
        m.crcAttempts = 1 ∧ m.crcChecked = true ∧
        (crc32 m.data ≠ m.declaredCrc →
          (m.crcChecked && !m.crcOk) = true) := by
  rcases scanZip_invariant il lz fuel d off with ⟨herr, hmem⟩
  refine ⟨herr, ?_⟩
  intro m hm hcrc hdata
  rcases hmem m hm with ⟨hchk, hatt, hok⟩
  have hchk' : m.crcChecked = true := by
    rw [hchk]
    simp [hcrc, List.isEmpty_iff, hdata]
  refine ⟨by rw [hatt, if_pos hchk'], hchk', ?_⟩
  intro hne
  rw [hchk', hok, if_pos hchk']
  simp [hne]

/-- A 34-byte buffer holding one stored member `a` (declared CRC-32 = 5,
wrong on purpose; payload `[1, 2, 3]`). -/
def c4wit : Buf :=
  ⟨34, fun i =>
    if i < 4 then zipSig.getD i 0
    else if i = 14 then 5
    else if i = 18 then 3
    else if i = 26 then 1
    else if i = 30 then 0x61
    else if 31 ≤ i ∧ i < 34 then i - 30
    else 0⟩

set_option maxRecDepth 4000 in
/-- Witness for the amended C4 theorem at a concrete member with a
deliberately wrong nonzero CRC-32. -/
theorem checksum_verified_once_mismatch_logged_witness :
    (Member.mk [0x61] [1, 2, 3] 5 0 true false 1).crcAttempts = 1 ∧
    (scanZip (fun _ => none) (fun _ => none) 35 c4wit 0).checksumErrors =
      ((scanZip (fun _ => none) (fun _ => none) 35 c4wit 0).members.filter
        (fun m => m.crcChecked && !m.crcOk)).length :=
  ⟨((checksum_verified_once_mismatch_logged (fun _ => none) (fun _ => none)
      35 c4wit 0).2 (Member.mk [0x61] [1, 2, 3] 5 0 true false 1)
      (by decide) (by decide) (by decide)).1,
   (checksum_verified_once_mismatch_logged (fun _ => none) (fun _ => none)
      35 c4wit 0).1⟩

/-- A 31-byte buffer holding one stored member `a` with declared CRC-32
= 1 (nonzero) and an empty payload. -/
def c4cex : Buf :=
  ⟨31, fun i =>
    if i < 4 then zipSig.getD i 0
    else if i = 14 then 1
    else if i = 26 then 1
    else if i = 30 then 0x61
    else 0⟩

set_option maxRecDepth 4000 in
/-- Claim C4 counterexample: a member whose declared CRC-32 is nonzero
(1) but whose decompressed data is empty is written with no verification
attempt and no checksum-mismatch anomaly, although the computed CRC-32
of the data (0) differs from the declared value — refuting "verifies
exactly once" and "records exactly one checksum-mismatch anomaly". -/
theorem nonzero_crc_empty_data_not_verified_cex :
    (extract_damaged_zip (fun _ => none) (fun _ => none) c4cex).members =
      [Member.mk [0x61] [] 1 0 false true 0] ∧
    (extract_damaged_zip (fun _ => none) (fun _ => none) c4cex).checksumErrors
      = 0 ∧
    (extract_damaged_zip (fun _ => none) (fun _ => none) c4cex).log = [] ∧
    crc32 [] ≠ 1 := by
  exact ⟨by decide, by decide, by decide, by decide⟩

/-- Claim C10: a member whose decompressed data is empty skips CRC-32
verification entirely — even when the declared CRC-32 is nonzero — so it
contributes no checksum-mismatch anomaly (the counter counts only
members whose verification ran and failed) and is treated as
checksum-valid. -/
theorem empty_member_skips_checksum
    (il lz : List Nat → Option (List Nat)) (fuel : Nat) (d : Buf) (off : Nat) :
    (∀ m ∈ (scanZip il lz fuel d off).members,
      m.data = [] →
        m.crcChecked = false ∧ m.crcOk = true ∧ m.crcAttempts = 0 ∧
        (m.crcChecked && !m.crcOk) = false) ∧
    (scanZip il lz fuel d off).checksumErrors =
      ((scanZip il lz fuel d off).members.filter
        (fun m => m.crcChecked && !m.crcOk)).length := by
  rcases scanZip_invariant il lz fuel d off with ⟨herr, hmem⟩
  refine ⟨?_, herr⟩
  intro m hm hdata
  rcases hmem m hm with ⟨hchk, hatt, hok⟩
  have hchk' : m.crcChecked = false := by
    rw [hchk, hdata]
    simp
  refine ⟨hchk', ?_, ?_, ?_⟩
  · rw [hok, if_neg (by simp [hchk'])]
  · rw [hatt, if_neg (by simp [hchk'])]
  · simp [hchk']

/-- A 31-byte buffer holding one stored member `b` with declared CRC-32
= 7 and an empty payload. -/
def c10wit : Buf :=
  ⟨31, fun i =>
    if i < 4 then zipSig.getD i 0
    else if i = 14 then 7
    else if i = 26 then 1
    else if i = 30 then 0x62
    else 0⟩

set_option maxRecDepth 4000 in
/-- Witness for C10 at a concrete member with empty data and nonzero
declared CRC-32. -/
theorem empty_member_skips_checksum_witness :
    (Member.mk [0x62] [] 7 0 false true 0).crcChecked = false ∧
    (Member.mk [0x62] [] 7 0 false true 0).crcOk = true := by
  have h := (empty_member_skips_checksum (fun _ => none) (fun _ => none)
    32 c10wit 0).1 (Member.mk [0x62] [] 7 0 false true 0) (by decide) rfl
  exact ⟨h.1, h.2.1⟩

/-- Claim C5 amended: at a loop iteration whose cursor sits on a
signature match with filename length over 1000 or extra length over
50000, the scan records the iteration and continues with the cursor
advanced by exactly four bytes (`offset += 4`, line 245). -/
theorem sanity_reject_advances_four (il lz : List Nat → Option (List Nat))
    (fuel : Nat) (d : Buf) (off : Nat)
    (hloop : off < d.len - 30)
    (hsig : d.slice off (off + 4) = zipSig)
    (hbound : 1000 < d.u16 (off + 26) ∨ 50000 < d.u16 (off + 28)) :
    scanZip il lz (fuel + 1) d off =
      ScanResult.push off (scanZip il lz fuel d (off + 4)) := by
  conv_lhs => unfold scanZip
  rw [if_neg (by exact fun hc => hc hloop), if_neg (by simp [hsig]),
    if_pos hbound]

/-- A 40-byte buffer with a signature match at offset 0 whose filename
length field holds 1001. -/
def c5cex : Buf :=
  ⟨40, fun i =>
    if i < 4 then zipSig.getD i 0
    else if i = 26 then 0xE9
    else if i = 27 then 3
    else 0⟩

set_option maxRecDepth 4000 in
/-- Claim C5 counterexample: at the rejected match at offset 0 (filename
length 1001 > 1000), the next executed iteration is at offset 4, not at
offset 1 — the scan advances by four bytes, not one. -/
theorem scan_advance_one_byte_cex :
    c5cex.u16 26 = 1001 ∧
    c5cex.slice 0 4 = zipSig ∧
    (extract_damaged_zip (fun _ => none) (fun _ => none) c5cex).offsets =
      [0, 4, 5, 6, 7, 8, 9] ∧
    (extract_damaged_zip (fun _ => none) (fun _ => none) c5cex).offsets.getD 1 0
      ≠ 1 := by
  exact ⟨by decide, by decide, by decide, by decide⟩

set_option maxRecDepth 4000 in
/-- Witness for the amended C5 theorem at a concrete buffer. -/
theorem sanity_reject_advances_four_witness :
    scanZip (fun _ => none) (fun _ => none) 41 c5cex 0 =
      ScanResult.push 0 (scanZip (fun _ => none) (fun _ => none) 40 c5cex 4) :=
  sanity_reject_advances_four (fun _ => none) (fun _ => none) 40 c5cex 0
    (by decide) (by decide) (by decide)

/-! ## Write paths and path traversal -/

/-- `filename.replace('\\', os.sep)` on a POSIX host: backslashes become
slashes. -/
def replaceBackslash (f : List Nat) : List Nat :=
  f.map (fun b => if b = 0x5C then 0x2F else b)

/-- Walk the path components below the output root; `true` when some
`..` component steps above the root. -/
def escapeWalk : List (List Nat) → Nat → Bool
  | [], _ => false
  | c :: rest, dep =>
      if c = [] ∨ c = [0x2E] then escapeWalk rest dep
      else if c = [0x2E, 0x2E] then
        (if dep = 0 then true else escapeWalk rest (dep - 1))
      else escapeWalk rest (dep + 1)

/-- Whether the path `output_root / filename` resolves outside the
output root: an absolute filename replaces the root entirely on POSIX
`Path` joining, and `..` components can step above the root. -/
def escapesRoot (f : List Nat) : Bool :=
  ((replaceBackslash f).head? == some 0x2F) ||
    escapeWalk ((replaceBackslash f).splitOn 0x2F) 0

/-- A 44-byte buffer holding one stored member named `../evil.txt` with
payload `[1, 2, 3]`. -/
def c7cex : Buf :=
  ⟨44, fun i =>
    if i < 4 then zipSig.getD i 0
    else if i = 18 then 3
    else if i = 26 then 11
    else if 30 ≤ i ∧ i < 41 then
      [0x2E, 0x2E, 0x2F, 0x65, 0x76, 0x69, 0x6C, 0x2E, 0x74, 0x78, 0x74].getD
        (i - 30) 0
    else if 41 ≤ i ∧ i < 44 then i - 40
    else 0⟩

set_option maxRecDepth 4000 in
/-- Claim C7: the reconstructor writes every extracted member under its
declared name with no path-traversal guard; the member named
`../evil.txt`, whose resolved path escapes the output root, is written
(failing input for the claimed rejection). -/
theorem path_traversal_member_written_cex :
    (extract_damaged_zip (fun _ => none) (fun _ => none) c7cex).members.map
      Member.filename =
      [[0x2E, 0x2E, 0x2F, 0x65, 0x76, 0x69, 0x6C, 0x2E, 0x74, 0x78, 0x74]] ∧
    escapesRoot
      [0x2E, 0x2E, 0x2F, 0x65, 0x76, 0x69, 0x6C, 0x2E, 0x74, 0x78, 0x74] =
      true ∧
    (extract_damaged_zip (fun _ => none) (fun _ => none) c7cex).members.map
      Member.data = [[1, 2, 3]] := by
  exact ⟨by decide, by decide, by decide⟩

/-! ## Recovery Orchestrator (`CaseWareExtractor.process_file`)

The zipfile-library extraction of `extract_zip_archive` is the oracle
`zipLib : Buf → Option Nat`: `some c` models `ZipFile.extractall`
succeeding with `c = len(namelist())` members, `none` models
`BadZipFile`. -/

/-- Python `data.find(b'PK\x03\x04', start)`: the lowest position at or
after `start` where the 4-byte signature occurs in full. -/
def findSig (d : Buf) (start : Nat) : Option Nat :=
  (List.range' start (d.len - 3 - start)).find?
    (fun p => d.slice p (p + 4) == zipSig)

/-- A found signature position lies at or after the requested start and
inside the buffer. -/
theorem findSig_bounds (d : Buf) (start p : Nat)
    (h : findSig d start = some p) : start ≤ p ∧ p < d.len := by
  have hm := List.mem_of_find?_eq_some h
  rw [List.mem_range'_1] at hm
  omega

/-- `CaseWareExtractor.extract_zip_archive` (lines 187-224): locate the
first signature (offset 0 when the buffer starts with it), hand the
suffix from there to the zipfile library; succeed exactly when the
library call does.  The result carries the library's member count. -/
def zipArchResult (zipLib : Buf → Option Nat) (d : Buf) : Option Nat :=
  match (if d.slice 0 4 = zipSig then some 0 else findSig d 0) with
  | none => none
  | some p => zipLib (d.suffix p)

/-- Method 3 (`process_file` lines 353-368): for each signature
occurrence in ascending offset order, re-run the reconstructor on the
suffix from that occurrence; stop at the first that extracts at least
one member; count 0 when none does.  Budget `d.len + 1` is enough
because each probe resumes one byte after the previous occurrence. -/
def method3 (il lz : List Nat → Option (List Nat)) :
    Nat → Buf → Nat → Nat
  | 0, _, _ => 0
  | fuel + 1, d, off =>
      match findSig d off with
      | none => 0
      | some p =>
          if 0 < (extract_damaged_zip il lz (d.suffix p)).members.length then
            (extract_damaged_zip il lz (d.suffix p)).members.length
          else method3 il lz fuel d (p + 1)

/-- Strategy 1 (`process_file` lines 333-344): parse the compound
document; when a nonempty stream is found, decode it and try the
zipfile-library extraction, then the manual reconstructor.  Returns
(success flag, members extracted by the strategy). -/
def strategy1 (zipLib : Buf → Option Nat)
    (il lz : List Nat → Option (List Nat)) (d : Buf) : Bool × Nat :=
  let ole := (parse_ole_compound_document d).getD []
  if ole.isEmpty then (false, 0)
  else
    let dec := Buf.ofList (decompress_caseware_file lz ole)
    match zipArchResult zipLib dec with
    | some c => (true, c)
    | none =>
        (decide (0 < (extract_damaged_zip il lz dec).members.length),
         (extract_damaged_zip il lz dec).members.length)

/-- A failed strategy 1 extracted no members. -/
theorem strategy1_false_eq_zero (zipLib : Buf → Option Nat)
    (il lz : List Nat → Option (List Nat)) (d : Buf)
    (h : (strategy1 zipLib il lz d).1 = false) :
    (strategy1 zipLib il lz d).2 = 0 := by
  revert h
  unfold strategy1
  dsimp only
  split
  · intro _
    rfl
  · rcases hz : zipArchResult zipLib (Buf.ofList (decompress_caseware_file lz
        ((parse_ole_compound_document d).getD []))) with _ | c
    · dsimp only
      intro h
      simp only [decide_eq_false_iff_not] at h
      omega
    · dsimp only
      intro h
      exact absurd h (by simp)

/-- `CaseWareExtractor.process_file` (lines 330-371): the three recovery
strategies in order, each later one attempted only when the earlier
produced no success.  The result is the trace of attempted strategies
with the member count each extracted. -/
def processFile (zipLib : Buf → Option Nat)
    (il lz : List Nat → Option (List Nat)) (d : Buf) : List (Nat × Nat) :=
  if (strategy1 zipLib il lz d).1 then [(1, (strategy1 zipLib il lz d).2)]
  else if 0 < (extract_damaged_zip il lz d).members.length then
    [(1, (strategy1 zipLib il lz d).2),
     (2, (extract_damaged_zip il lz d).members.length)]
  else
    [(1, (strategy1 zipLib il lz d).2),
     (2, (extract_damaged_zip il lz d).members.length),
     (3, method3 il lz (d.len + 1) d 0)]

/-- Claim C2: for every input buffer the orchestrator attempts its
strategies in the fixed order 1 (structured stream path), 2 (direct
scan), 3 (signature-seek retry): the attempted trace is a prefix of
`[1, 2, 3]`, every non-final attempted strategy extracted zero members
(so a later strategy runs only when every earlier one extracted zero,
and the orchestrator stops as soon as a strategy extracts at least
one member), and between one and all three strategies run. -/
theorem orchestrator_ordered_strategies (zipLib : Buf → Option Nat)
    (il lz : List Nat → Option (List Nat)) (d : Buf) :
    (processFile zipLib il lz d).map Prod.fst =
      [1, 2, 3].take (processFile zipLib il lz d).length ∧
    (∀ e ∈ (processFile zipLib il lz d).dropLast, e.2 = 0) ∧
    1 ≤ (processFile zipLib il lz d).length ∧
    (processFile zipLib il lz d).length ≤ 3 := by
  unfold processFile
  by_cases h1 : (strategy1 zipLib il lz d).1 = true
  · simp only [if_pos h1]
    refine ⟨by simp, ?_, by simp, by simp⟩
    intro e he
    simp at he
  · have h1' : (strategy1 zipLib il lz d).1 = false := by
      revert h1
      cases (strategy1 zipLib il lz d).1 <;> simp
    have h0 := strategy1_false_eq_zero zipLib il lz d h1'
    simp only [h1', Bool.false_eq_true, if_false]
    by_cases h2 : 0 < (extract_damaged_zip il lz d).members.length
    · simp only [if_pos h2]
      refine ⟨by simp, ?_, by simp, by simp⟩
      intro e he
      simp only [List.dropLast, List.mem_singleton] at he
      rw [he, h0]
    · simp only [if_neg h2]
      refine ⟨by simp, ?_, by simp, by simp⟩
      intro e he
      have h2' : (extract_damaged_zip il lz d).members.length = 0 := by omega
      simp only [List.dropLast, List.mem_cons, List.mem_singleton] at he
      rcases he with rfl | he
      · exact h0
      · rcases he with rfl | he
        · exact h2'
        · exact absurd he (by simp)

/-- The empty buffer. -/
def c2wit : Buf := ⟨0, fun _ => 0⟩

/-- Witness for C2 at concrete input: all-failing oracles on the empty
buffer (all three strategies run and extract nothing). -/
theorem orchestrator_ordered_strategies_witness :
    (processFile (fun _ => none) (fun _ => none) (fun _ => none) c2wit).map
      Prod.fst = [1, 2, 3].take (processFile (fun _ => none) (fun _ => none)
        (fun _ => none) c2wit).length ∧
    ((1 : Nat), (0 : Nat)).2 = 0 ∧
    1 ≤ (processFile (fun _ => none) (fun _ => none) (fun _ => none)
      c2wit).length :=
  ⟨(orchestrator_ordered_strategies (fun _ => none) (fun _ => none)
      (fun _ => none) c2wit).1,
   (orchestrator_ordered_strategies (fun _ => none) (fun _ => none)
      (fun _ => none) c2wit).2.1 (1, 0) (by decide),
   (orchestrator_ordered_strategies (fun _ => none) (fun _ => none)
      (fun _ => none) c2wit).2.2.1⟩
